import Mathlib

/-!
Verification of the archive/restore pipeline
(`archive_script_v4_parallel.py`, `restore_script_main.py`).

Paths and other strings are modelled as `List Char`; the Python functions
are translated into executable Lean definitions, and the spec's claims are
proved or refuted against them.
-/

set_option linter.unusedVariables false

/-- Convert a Lean string literal to the `List Char` representation used
throughout this development. -/
def toL (s : String) : List Char := s.data

/- ### Archive Finalizer (`create_archived_files`)

Per successful upload result the code runs, over the local filesystem:
1. `open(path + suffix, 'w')` — create a zero-byte marker;
2. `os.path.exists(marker)` — verify it, else raise;
3. `os.remove(path)` — delete the original;
4. `os.path.exists(path)` — verify deletion, else raise;
on any exception: remove the marker if it exists (this removal is itself
wrapped in `try/except`), and downgrade the result to failure.
Failed upload results are passed through untouched.

We model the observable local state of one file and a fault schedule
saying which of the three filesystem mutations fails. -/

/-- Observable local state of one file: original present?, marker present? -/
structure FileState where
  orig : Bool
  marker : Bool
  deriving DecidableEq, Repr

/-- Which filesystem operations of the finalizer fail for this file:
marker creation (step 1/2), original deletion (step 3/4), and the
compensating marker removal in the exception handler. -/
structure FinalizerFaults where
  createFails : Bool
  deleteFails : Bool
  cleanupFails : Bool
  deriving DecidableEq, Repr

/-- One finalizer pass over one successfully uploaded file
(`create_archived_files`, per-result body): the full sequence of observable
states (head = initial state, last = final state) together with the
`success` flag left on the result.  A state appears in the list exactly when
the process could be observed/interrupted there. -/
def finalizeRun (f : FinalizerFaults) : List FileState × Bool :=
  let s0 : FileState := ⟨true, false⟩
  if f.createFails then
    -- marker creation raised (or the marker did not appear): the except
    -- branch finds no marker to clean up; result downgraded to failure
    ([s0], false)
  else
    let s1 : FileState := ⟨true, true⟩
    if f.deleteFails then
      if f.cleanupFails then
        -- deletion raised, compensating marker removal also raised:
        -- marker left behind next to the original; downgraded
        ([s0, s1], false)
      else
        -- deletion raised, marker removed as compensation; downgraded
        ([s0, s1, ⟨true, false⟩], false)
    else
      -- marker created and verified, original deleted and verified
      ([s0, s1, ⟨false, true⟩], true)

/- ### Upload retry (`_upload_file_with_retry`)

```
for attempt in range(max_retries):
    try: upload(...); return ok
    except FileNotFoundError:   return fail 'ファイルが見つかりません'
    except PermissionError:     return fail 'ファイルアクセス権限がありません'
    except Exception as e:
        if attempt == max_retries - 1: return fail 'max retries reached: e'
        time.sleep(2 ** attempt)
return fail '不明なエラー'
```
The per-attempt behaviour of S3 is a parameter `outcome`. -/

/-- What the `attempt`-th call of `s3_client.upload_file` does. -/
inductive AttemptOutcome where
  | success
  | fileNotFound
  | permissionDenied
  | transient
  deriving DecidableEq, Repr

/-- The value `_upload_file_with_retry` returns. -/
inductive UploadVerdict where
  | ok
  | errNotFound
  | errPermission
  | errMaxRetry
  | errUnknown
  deriving DecidableEq, Repr

/-- Result of the retry loop: final verdict, number of upload attempts
actually made, and the list of backoff delays slept (in seconds), in order. -/
structure RetryRun where
  verdict : UploadVerdict
  attempts : Nat
  sleeps : List Nat
  deriving DecidableEq, Repr

/-- The body of `_upload_file_with_retry` from loop index `attempt` on. -/
def uploadLoop (outcome : Nat → AttemptOutcome) (maxRetries attempt : Nat) : RetryRun :=
  if attempt < maxRetries then
    match outcome attempt with
    | .success => ⟨.ok, attempt + 1, []⟩
    | .fileNotFound => ⟨.errNotFound, attempt + 1, []⟩
    | .permissionDenied => ⟨.errPermission, attempt + 1, []⟩
    | .transient =>
      if attempt = maxRetries - 1 then ⟨.errMaxRetry, attempt + 1, []⟩
      else
        let r := uploadLoop outcome maxRetries (attempt + 1)
        ⟨r.verdict, r.attempts, 2 ^ attempt :: r.sleeps⟩
  else ⟨.errUnknown, attempt, []⟩
termination_by maxRetries - attempt

/-- `_upload_file_with_retry`: run the retry loop from attempt 0. -/
def uploadFileWithRetry (outcome : Nat → AttemptOutcome) (maxRetries : Nat) : RetryRun :=
  uploadLoop outcome maxRetries 0

/- ### Upload coordinator (`_parallel_upload` / `_upload_single_file`)

`_upload_single_file` builds the result dict for one file; the coordinator
submits one task per input index, stores `future.result()` at that index in
a pre-sized `results = [None] * len(files)` list, and replaces a worker
exception by a failed fallback dict at the same index.  The completion
order of the futures is a parameter `order` (any permutation of the
indices). -/

/-- A file task produced by discovery (`file_info` dict, the fields the
coordinator uses). -/
structure FileInfo where
  path : List Char
  size : Nat
  directory : List Char
  deriving DecidableEq, Repr

/-- The `{'success': ..., 'error': ...}` dict `_upload_file_with_retry` /
the simulation branch hand back, plus the generated S3 key. -/
structure UploadCore where
  success : Bool
  error : Option (List Char)
  s3Key : List Char
  deriving DecidableEq, Repr

/-- The per-file result dict of `_upload_single_file` (fields relevant to
the claims). -/
structure UploadResult where
  file_path : List Char
  file_size : Nat
  directory : List Char
  success : Bool
  error : Option (List Char)
  s3_key : Option (List Char)
  deriving DecidableEq, Repr

/-- `_upload_single_file`: builds the result record for one file from the
upload core outcome (`s3_key` is kept only on success, as in the source). -/
def uploadSingleFile (f : FileInfo) (core : UploadCore) : UploadResult :=
  { file_path := f.path
    file_size := f.size
    directory := f.directory
    success := core.success
    error := core.error
    s3_key := if core.success then some core.s3Key else none }

/-- The fallback result `_parallel_upload` stores when a worker raised
exception `e`. -/
def fallbackResult (f : FileInfo) (e : List Char) : UploadResult :=
  { file_path := f.path
    file_size := f.size
    directory := f.directory
    success := false
    error := some (toL "並列処理エラー: " ++ e)
    s3_key := none }

/-- What one worker yields for one file: its result dict, or the exception
it raised. -/
def workerResult (raw : FileInfo → Except (List Char) UploadCore) (f : FileInfo) :
    Except (List Char) UploadResult :=
  match raw f with
  | .ok core => .ok (uploadSingleFile f core)
  | .error e => .error e

/-- The entry `_parallel_upload` ends up storing for file `f`:
`future.result()` on normal return, the fallback dict on an exception. -/
def settledResult (raw : FileInfo → Except (List Char) UploadCore) (f : FileInfo) :
    UploadResult :=
  match workerResult raw f with
  | .ok r => r
  | .error e => fallbackResult f e

/-- `_parallel_upload`: `results = [None] * len(files)`; as each future
completes (in `order`) its result is stored at the submitting index. -/
def parallelUpload (raw : FileInfo → Except (List Char) UploadCore)
    (files : List FileInfo) (order : List Nat) : List (Option UploadResult) :=
  order.foldl
    (fun acc i =>
      match files.get? i with
      | some f => acc.set i (some (settledResult raw f))
      | none => acc)
    (List.replicate files.length none)

/- ### String helpers shared by the embeddings -/

/-- Python `str.strip` whitespace (ASCII portion). -/
def isPyWs (c : Char) : Bool :=
  decide (c = ' ' ∨ c = '\t' ∨ c = '\n' ∨ c = '\r' ∨ c = '\x0b' ∨ c = '\x0c')

/-- Python `str.strip()`. -/
def stripWs (s : List Char) : List Char :=
  ((s.dropWhile isPyWs).reverse.dropWhile isPyWs).reverse

/-- Python `str.rstrip()`. -/
def rstripWs (s : List Char) : List Char :=
  (s.reverse.dropWhile isPyWs).reverse

/-- Python `str.lower()` (ASCII model). -/
def lowerL (s : List Char) : List Char := s.map Char.toLower

/-- Python `pat in s` substring test. -/
def hasSubstr (pat : List Char) : List Char → Bool
  | [] => pat.isEmpty
  | c :: cs => pat.isPrefixOf (c :: cs) || hasSubstr pat cs

/-- Python `s.split(sep)` for a one-character separator (keeps empty parts). -/
def splitOnChar (sep : Char) : List Char → List (List Char)
  | [] => [[]]
  | c :: cs =>
    match splitOnChar sep cs with
    | [] => [[c]]
    | h :: t => if c = sep then [] :: h :: t else (c :: h) :: t

/-- Python `s.split(sep, 1)` for a one-character separator: the part before
the first separator, and the rest if a separator occurred. -/
def splitOnceChar (sep : Char) : List Char → List Char × Option (List Char)
  | [] => ([], none)
  | c :: cs =>
    if c = sep then ([], some cs)
    else
      let r := splitOnceChar sep cs
      (c :: r.1, r.2)

/-- Python `sep.join(parts)` for a one-character separator. -/
def joinChar (sep : Char) : List (List Char) → List Char
  | [] => []
  | [x] => x
  | x :: y :: ys => x ++ sep :: joinChar sep (y :: ys)

/-- `'\\' → '/'` normalization used by `_generate_s3_key`. -/
def normalizeToSlash (s : List Char) : List Char :=
  s.map fun c => if c = '\\' then '/' else c

/-- `'/' → '\\'` normalization used by the restore path computations. -/
def slashToBack (s : List Char) : List Char :=
  s.map fun c => if c = '/' then '\\' else c

/-- Windows path-separator test. -/
def isSep (c : Char) : Bool := decide (c = '\\' ∨ c = '/')

/-- Model of `ntpath.basename` for paths without a drive-relative prefix:
everything after the last path separator. -/
def ntBasename (p : List Char) : List Char :=
  (p.reverse.takeWhile (fun c => !isSep c)).reverse

/-- Model of `ntpath.join a b` for a `b` without a drive letter: a rooted
`b` wins; otherwise a separator is inserted unless `a` already ends with
one (or with a drive colon). -/
def ntJoin (a b : List Char) : List Char :=
  if b.head? = some '\\' ∨ b.head? = some '/' then b
  else if a = [] then b
  else if a.getLast? = some '\\' ∨ a.getLast? = some '/' ∨ a.getLast? = some ':' then a ++ b
  else a ++ '\\' :: b

/-- Extension part of `os.path.splitext` on a bare filename: from the last
dot, unless every character before that dot is itself a dot. -/
def splitextExt (name : List Char) : List Char :=
  let afterRev := name.reverse.takeWhile (fun c => decide (c ≠ '.'))
  if afterRev.length = name.length then []
  else
    let root := name.take (name.length - afterRev.length - 1)
    if root.all (fun c => decide (c = '.')) then [] else '.' :: afterRev.reverse

/- ### Directive Loader (`validate_csv_input` /
`_validate_directory_path_with_details`, archive v4) -/

/-- What the filesystem says about one path (results of `os.path.exists`,
`os.path.isdir`, `os.access(..., R_OK)`). -/
structure PathInfo where
  pathExists : Bool
  isDir : Bool
  readable : Bool
  deriving DecidableEq, Repr

/-- The characters `_validate_directory_path_with_details` rejects. -/
def invalidPathChars : List Char := ['<', '>', ':', '"', '|', '?', '*']

/-- `_validate_directory_path_with_details`: `none` when the path is valid,
`some reason` otherwise, mirroring the check order of the source. -/
def validateDirectoryPath (fs : List Char → PathInfo) (path : List Char) :
    Option (List Char) :=
  if stripWs path = [] then some (toL "空のパス")
  else
    match invalidPathChars.find?
        (fun c => (if (toL "\\\\").isPrefixOf path then path.drop 2 else path).contains c) with
    | some c => some (toL "不正な文字が含まれています: " ++ [c])
    | none =>
      if 260 < path.length then some (toL "パスが長すぎます")
      else if ¬(fs path).pathExists then some (toL "ディレクトリが存在しません")
      else if ¬(fs path).isDir then some (toL "ディレクトリではありません（ファイルです）")
      else if ¬(fs path).readable then some (toL "読み取り権限がありません")
      else none

/-- A per-line validation error record (`error_item` dict). -/
structure ErrorItem where
  lineNumber : Nat
  path : List Char
  reason : List Char
  original : List Char
  deriving DecidableEq, Repr

/-- First-line header detection: the lowercased line contains `directory`
or `path`. -/
def isHeaderLine (clean : List Char) : Bool :=
  hasSubstr (toL "directory") (lowerL clean) || hasSubstr (toL "path") (lowerL clean)

/-- The loop body of `validate_csv_input` over the enumerated lines
(index, raw line): blank lines skipped, a first-line header skipped, every
other line validated; a valid path or an error item is emitted per line, in
input order. -/
def validateCsvLines (fs : List Char → PathInfo) :
    List (Nat × List Char) → List (List Char) × List ErrorItem
  | [] => ([], [])
  | p :: rest =>
    let clean := stripWs p.2
    if clean = [] then validateCsvLines fs rest
    else if p.1 = 0 ∧ isHeaderLine clean = true then validateCsvLines fs rest
    else
      match validateDirectoryPath fs clean with
      | none =>
        (clean :: (validateCsvLines fs rest).1, (validateCsvLines fs rest).2)
      | some reason =>
        ((validateCsvLines fs rest).1,
         ⟨p.1 + 1, clean, reason, rstripWs p.2⟩ :: (validateCsvLines fs rest).2)

/-- `validate_csv_input` (archive v4): run the per-line loop over the
enumerated lines. -/
def validateCsvInput (fs : List Char → PathInfo) (lines : List (List Char)) :
    List (List Char) × List ErrorItem :=
  validateCsvLines fs lines.enum

/- ### File Discovery (`collect_files` / `_is_archived_file`, archive v4) -/

/-- One file met by `os.walk`: the directory (`root`) it sits in, its bare
filename, its size, and whether `os.stat` succeeds on it. -/
structure FsFile where
  root : List Char
  name : List Char
  size : Nat
  statOk : Bool
  deriving DecidableEq, Repr

/-- One manifest directory as seen by discovery: its path, whether the walk
itself succeeds, and the flattened list of files the walk yields. -/
structure FsDir where
  path : List Char
  walkOk : Bool
  files : List FsFile
  deriving DecidableEq, Repr

/-- The configuration fields discovery reads. -/
structure DiscoveryConfig where
  excludeExts : List (List Char)
  maxFileSize : Nat
  archivedSuffix : List Char
  deriving DecidableEq, Repr

/-- A discovered work item (`file_info` dict of `collect_files`). -/
structure FileTask where
  path : List Char
  size : Nat
  directory : List Char
  deriving DecidableEq, Repr

/-- `_is_archived_file`: `filename.endswith(archived_suffix)`. -/
def isArchivedFile (filename archivedSuffix : List Char) : Bool :=
  archivedSuffix.isSuffixOf filename

/-- The per-directory body of `collect_files`: a failed walk skips the
whole directory; per file, archived markers, excluded extensions, failed
`stat`s and oversized files are skipped, everything else becomes a task. -/
def collectDirFiles (cfg : DiscoveryConfig) (d : FsDir) : List FileTask :=
  if d.walkOk then
    d.files.filterMap fun fl =>
      if isArchivedFile fl.name cfg.archivedSuffix then none
      else if lowerL (splitextExt fl.name) ∈ cfg.excludeExts then none
      else if ¬fl.statOk = true then none
      else if cfg.maxFileSize < fl.size then none
      else some ⟨ntJoin fl.root fl.name, fl.size, d.path⟩
  else []

/-- `collect_files` over the list of valid directories. -/
def collectFiles (cfg : DiscoveryConfig) (dirs : List FsDir) : List FileTask :=
  dirs.flatMap (collectDirFiles cfg)

/- ### S3 key derivation (`_generate_s3_key`) -/

/-- The body of `_generate_s3_key` when no exception is raised. -/
def generateS3KeyCore (filePath : List Char) : List Char :=
  let normalized := normalizeToSlash filePath
  let key :=
    if normalized.take 2 = toL "//" then
      match splitOnChar '/' (normalized.drop 2) with
      | [] => toL "unknown_server/unknown_path"
      | server :: rest =>
        if rest = [] then server ++ toL "/root"
        else server ++ '/' :: joinChar '/' rest
    else if 2 < normalized.length ∧ normalized.get? 1 = some ':' then
      let drive := Char.toLower (normalized.headD ' ')
      toL "local_" ++ drive :: '/' :: normalized.drop 3
    else
      toL "other/" ++ normalized
  let key := key.dropWhile (fun c => decide (c = '/'))
  joinChar '/' ((splitOnChar '/' key).filter (fun part => !part.isEmpty))

/-- `_generate_s3_key` with its exception handler: `fault` says whether the
derivation raised, in which case the timestamped fallback key is produced. -/
def generateS3Key (fault : Bool) (timestamp filePath : List Char) : List Char :=
  if fault then toL "fallback/" ++ timestamp ++ '/' :: ntBasename filePath
  else generateS3KeyCore filePath

/- ### Locator formatting and parsing
(`save_to_database` writes `f"s3://{bucket}/{key}"`; the restore side
parses it with `replace('s3://', '')` plus `split`). -/

/-- The locator string the archiver persists for a finalized file. -/
def formatS3Path (bucket key : List Char) : List Char :=
  toL "s3://" ++ bucket ++ '/' :: key

/-- Python `s.replace('s3://', '')`: removes every (left-to-right,
non-overlapping) occurrence of `s3://`. -/
def stripS3Scheme : List Char → List Char
  | 's' :: '3' :: ':' :: '/' :: '/' :: rest => stripS3Scheme rest
  | c :: cs => c :: stripS3Scheme cs
  | [] => []

/-- Does `s3://` occur anywhere in the string? -/
def containsS3Scheme : List Char → Bool
  | 's' :: '3' :: ':' :: '/' :: '/' :: _ => true
  | _ :: cs => containsS3Scheme cs
  | [] => false

/-- `_extract_bucket_from_s3_path`:
`s3_path.replace('s3://', '').split('/')[0]`. -/
def extractBucketFromS3Path (s3Path : List Char) : List Char :=
  match splitOnChar '/' (stripS3Scheme s3Path) with
  | [] => []
  | p :: _ => p

/-- `_extract_key_from_s3_path`:
`s3_path.replace('s3://', '').split('/', 1)[1]` (or `''`). -/
def extractKeyFromS3Path (s3Path : List Char) : List Char :=
  match (splitOnceChar '/' (stripS3Scheme s3Path)).2 with
  | some rest => rest
  | none => []

/- ### Restore poll phase (`check_restore_completion`) and download guard
(`download_and_place_files`) -/

/-- `restore_status` values of a `RestoreItem`. -/
inductive RestoreStatus where
  | pending
  | requested
  | alreadyInProgress
  | inProgress
  | completed
  | failed
  | checkFailed
  | unknown
  deriving DecidableEq, Repr

/-- The `Restore` header `head_object` reports for an object. -/
inductive RestoreHeader where
  | absent
  | ongoingTrue
  | ongoingFalse
  | other
  deriving DecidableEq, Repr

/-- How a `head_object` call can fail. -/
inductive HeadError where
  | noSuchKey
  | invalidObjectState
  | transient
  deriving DecidableEq, Repr

/-- Outcome of one `head_object` status query. -/
inductive HeadResult where
  | ok (h : RestoreHeader)
  | err (e : HeadError)
  deriving DecidableEq, Repr

/-- A persisted restore item: an identifier (standing for its bucket/key)
and its current `restore_status`. -/
structure RestoreItem where
  key : Nat
  status : RestoreStatus
  deriving DecidableEq, Repr

/-- The filter of `check_restore_completion`: only items whose status is
`requested` or `already_in_progress` are polled. -/
def pollEligible (s : RestoreStatus) : Bool :=
  decide (s = RestoreStatus.requested ∨ s = RestoreStatus.alreadyInProgress)

/-- The status transition `check_restore_completion` applies to a polled
item, from the `head_object` outcome. -/
def headTransition : HeadResult → RestoreStatus
  | .ok .absent => .pending
  | .ok .ongoingTrue => .inProgress
  | .ok .ongoingFalse => .completed
  | .ok .other => .unknown
  | .err .noSuchKey => .failed
  | .err .invalidObjectState => .failed
  | .err .transient => .checkFailed

/-- One invocation of `check_restore_completion`: `initOk` is whether the
S3 client initialized (on failure every polled item is marked
`check_failed`); `env` gives the current external restore state per item. -/
def checkRestoreCompletion (initOk : Bool) (env : Nat → HeadResult)
    (items : List RestoreItem) : List RestoreItem :=
  items.map fun it =>
    if pollEligible it.status then
      if initOk then { it with status := headTransition (env it.key) }
      else { it with status := RestoreStatus.checkFailed }
    else it

/-- Download outcome of one completed item. -/
inductive DownloadStatus where
  | downloaded
  | skipped
  deriving DecidableEq, Repr

/-- The skip-existing guard plus placement of `download_and_place_files`
for one `completed` item: if `skip_existing` is set and the destination
already exists the file is skipped, otherwise it is downloaded and placed
(the destination is added to the filesystem). -/
def placeCompletedFile (skipExisting : Bool) (fsFiles : List (List Char))
    (dest : List Char) : DownloadStatus × List (List Char) :=
  if skipExisting = true ∧ dest ∈ fsFiles then (.skipped, fsFiles)
  else (.downloaded, dest :: fsFiles)

/- ### Restore destination paths (`_calculate_relative_path`,
`download_and_place_files` lines 887–893) -/

/-- Restore mode of a manifest entry. -/
inductive RestoreMode where
  | file
  | directory
  deriving DecidableEq, Repr

/-- The requested root as `_calculate_relative_path` normalizes it:
separators backslashed, a trailing backslash ensured. -/
def normalizedRoot (restorePath : List Char) : List Char :=
  let r0 := slashToBack restorePath
  if r0.getLast? = some '\\' then r0 else r0 ++ ['\\']

/-- `_calculate_relative_path`: basename in file mode; in directory mode
the remainder of the normalized original path after the normalized,
separator-terminated requested root (falling back to the basename). -/
def calculateRelativePath (mode : RestoreMode) (originalPath restorePath : List Char) :
    List Char :=
  match mode with
  | .file => ntBasename originalPath
  | .directory =>
    let o := slashToBack originalPath
    let r := normalizedRoot restorePath
    if r.isPrefixOf o then
      let rel := o.drop r.length
      if rel = [] then ntBasename originalPath else rel
    else ntBasename originalPath

/-- Destination path computation of `download_and_place_files`: the target
directory joined with the relative path (directory mode) or with the
basename of the original path (file mode). -/
def downloadDestination (mode : RestoreMode) (restoreDir originalPath relativePath : List Char) :
    List Char :=
  match mode with
  | .directory => ntJoin restoreDir relativePath
  | .file => ntJoin restoreDir (ntBasename originalPath)

/- ### Exit codes (`ArchiveProcessorTestV4.run`,
`RestoreProcessor._run_restore_request`) -/

/-- The exit-relevant skeleton of `ArchiveProcessorTestV4.run`: an
unreadable manifest yields no directories; no valid directories → exit 1;
no files to do → exit 0; otherwise the uploads run (their outcomes are
returned alongside) and the exit code is 0 regardless of failures. -/
def archiveRun (csvOk : Bool) (fs : List Char → PathInfo) (lines : List (List Char))
    (cfg : DiscoveryConfig) (walk : List Char → Bool × List FsFile)
    (upload : FileTask → Bool) : Nat × List Bool :=
  let dirs := if csvOk then (validateCsvInput fs lines).1 else []
  if dirs = [] then (1, [])
  else
    let files := collectFiles cfg (dirs.map fun p => ⟨p, (walk p).1, (walk p).2⟩)
    if files = [] then (0, [])
    else (0, files.map upload)

/-- The exit-relevant skeleton of `_run_restore_request`: `reqs` is the
per-valid-manifest-line count of provenance-resolved files (an unreadable
manifest yields no requests); exit 1 when there are no requests or none
resolved to at least one file, else the restore calls are issued (their
outcomes, `sendOutcome`, do not influence the exit code) and exit is 0. -/
def restoreRequestRun (csvOk : Bool) (reqs : List Nat) (sendOutcome : Nat → Bool) : Nat :=
  let reqs := if csvOk then reqs else []
  if reqs = [] then 1
  else if reqs.filter (fun n => decide (0 < n)) = [] then 1
  else 0

/-! ## Theorems -/

/- ### C1 — Archive Finalizer consistency -/

/-- C1 (counterexample): when the deletion of the original fails and the
compensating removal of the orphan marker also fails, the finalizer leaves
the file in the state {original present, marker present} (and downgrades
the result) — so the claim's conjunct "a marker never persists while the
original is still present" is false on the code. -/
theorem C1_counterexample :
    (finalizeRun ⟨false, true, true⟩).1.getLast? = some ⟨true, true⟩ ∧
    (finalizeRun ⟨false, true, true⟩).2 = false := by
  decide

/-- C1 (amended): for every fault schedule, every observable state keeps
the original or the marker (so {original absent, marker absent} is
unreachable, also mid-operation); the result stays successful exactly when
marker creation and deletion both succeed, and then the end state is
{original absent, marker present}; if marker creation fails nothing is
deleted; if deletion fails the orphan marker is removed as compensation
when that removal succeeds — only a failing compensation leaves the marker
next to the still-present original; every downgraded result leaves the
original present. -/
theorem C1_finalizer_consistency (f : FinalizerFaults) :
    (∀ s ∈ (finalizeRun f).1, s.orig = true ∨ s.marker = true) ∧
    ((finalizeRun f).2 = true ↔ f.createFails = false ∧ f.deleteFails = false) ∧
    ((finalizeRun f).2 = true → (finalizeRun f).1.getLast? = some ⟨false, true⟩) ∧
    (f.createFails = true →
      (finalizeRun f).1.getLast? = some ⟨true, false⟩ ∧ (finalizeRun f).2 = false) ∧
    (f.createFails = false → f.deleteFails = true → f.cleanupFails = false →
      (finalizeRun f).1.getLast? = some ⟨true, false⟩ ∧ (finalizeRun f).2 = false) ∧
    (f.createFails = false → f.deleteFails = true → f.cleanupFails = true →
      (finalizeRun f).1.getLast? = some ⟨true, true⟩ ∧ (finalizeRun f).2 = false) ∧
    ((finalizeRun f).2 = false →
      (finalizeRun f).1.getLast? = some ⟨true, false⟩ ∨
      (finalizeRun f).1.getLast? = some ⟨true, true⟩) := by
  obtain ⟨a, b, c⟩ := f
  cases a <;> cases b <;> cases c <;> decide

/-- C1 witness: on the fault-free schedule the finalizer ends in
{original absent, marker present}. -/
theorem C1_finalizer_consistency_witness :
    (finalizeRun ⟨false, false, false⟩).1.getLast? = some ⟨false, true⟩ :=
  (C1_finalizer_consistency ⟨false, false, false⟩).2.2.1 (by decide)

/- ### C3 — Upload retry bound -/

theorem uploadLoop_else (outcome : Nat → AttemptOutcome) (m a : Nat) (h : ¬a < m) :
    uploadLoop outcome m a = ⟨.errUnknown, a, []⟩ := by
  rw [uploadLoop]
  simp [h]

theorem uploadLoop_attempts_le (outcome : Nat → AttemptOutcome) :
    ∀ n m a, m - a ≤ n → a ≤ m → (uploadLoop outcome m a).attempts ≤ m := by
  intro n
  induction n with
  | zero =>
    intro m a h1 h2
    have ha : a = m := by omega
    subst ha
    rw [uploadLoop_else outcome a a (Nat.lt_irrefl a)]
  | succ n ih =>
    intro m a h1 h2
    by_cases hlt : a < m
    · rw [uploadLoop]
      simp only [hlt, if_true]
      cases houtcome : outcome a with
      | success => simpa using hlt
      | fileNotFound => simpa using hlt
      | permissionDenied => simpa using hlt
      | transient =>
        by_cases hlast : a = m - 1
        · simp only [hlast, if_true]
          omega
        · simp only [hlast, if_false]
          exact ih m (a + 1) (by omega) (by omega)
    · rw [uploadLoop_else outcome m a hlt]
      exact h2

theorem uploadLoop_attempts_lower (outcome : Nat → AttemptOutcome) :
    ∀ n m a, m - a ≤ n → a < m → a + 1 ≤ (uploadLoop outcome m a).attempts := by
  intro n
  induction n with
  | zero => intro m a h1 h2; omega
  | succ n ih =>
    intro m a h1 h2
    rw [uploadLoop]
    simp only [h2, if_true]
    cases houtcome : outcome a with
    | success => simp
    | fileNotFound => simp
    | permissionDenied => simp
    | transient =>
      by_cases hlast : a = m - 1
      · simp [hlast]
      · simp only [hlast, if_false]
        have := ih m (a + 1) (by omega) (by omega)
        show a + 1 ≤ (uploadLoop outcome m (a + 1)).attempts
        omega

theorem uploadLoop_sleeps_shape (outcome : Nat → AttemptOutcome) :
    ∀ n m a, m - a ≤ n →
      (uploadLoop outcome m a).sleeps =
        (List.range' a ((uploadLoop outcome m a).attempts - 1 - a)).map (2 ^ ·) := by
  intro n
  induction n with
  | zero =>
    intro m a h1
    have hnl : ¬a < m := by omega
    rw [uploadLoop_else outcome m a hnl]
    simp
  | succ n ih =>
    intro m a h1
    by_cases hlt : a < m
    · rw [uploadLoop]
      simp only [hlt, if_true]
      cases houtcome : outcome a with
      | success => simp
      | fileNotFound => simp
      | permissionDenied => simp
      | transient =>
        by_cases hlast : a = m - 1
        · simp [hlast]
        · simp only [hlast, if_false]
          have hrec := ih m (a + 1) (by omega)
          have hlow := uploadLoop_attempts_lower outcome n m (a + 1) (by omega) (by omega)
          show 2 ^ a :: (uploadLoop outcome m (a + 1)).sleeps =
            (List.range' a ((uploadLoop outcome m (a + 1)).attempts - 1 - a)).map (2 ^ ·)
          rw [hrec]
          have hk : (uploadLoop outcome m (a + 1)).attempts - 1 - a =
              ((uploadLoop outcome m (a + 1)).attempts - 1 - (a + 1)) + 1 := by omega
          rw [hk, List.range'_succ]
          simp
    · rw [uploadLoop_else outcome m a hlt]
      simp

theorem uploadLoop_allTransient (outcome : Nat → AttemptOutcome) :
    ∀ n m a, m - a ≤ n → a < m →
      (∀ i, a ≤ i → i < m → outcome i = AttemptOutcome.transient) →
      uploadLoop outcome m a =
        ⟨.errMaxRetry, m, (List.range' a (m - 1 - a)).map (2 ^ ·)⟩ := by
  intro n
  induction n with
  | zero => intro m a h1 h2 h3; omega
  | succ n ih =>
    intro m a h1 h2 h3
    rw [uploadLoop]
    simp only [h2, if_true]
    rw [h3 a (Nat.le_refl a) h2]
    by_cases hlast : a = m - 1
    · simp only [hlast, if_true]
      have hm : m - 1 + 1 = m := by omega
      have hr : m - 1 - (m - 1) = 0 := by omega
      rw [hm, hr]
      rfl
    · simp only [hlast, if_false]
      rw [ih m (a + 1) (by omega) (by omega) (fun i hi1 hi2 => h3 i (by omega) hi2)]
      show (⟨.errMaxRetry, m, 2 ^ a :: (List.range' (a + 1) (m - 1 - (a + 1))).map (2 ^ ·)⟩ : RetryRun) =
        ⟨.errMaxRetry, m, (List.range' a (m - 1 - a)).map (2 ^ ·)⟩
      have hk : m - 1 - a = (m - 1 - (a + 1)) + 1 := by omega
      rw [hk, List.range'_succ]
      simp

theorem uploadLoop_stopNotFound (outcome : Nat → AttemptOutcome) :
    ∀ n m a k, k - a ≤ n → a ≤ k → k < m →
      (∀ i, a ≤ i → i < k → outcome i = AttemptOutcome.transient) →
      outcome k = AttemptOutcome.fileNotFound →
      uploadLoop outcome m a = ⟨.errNotFound, k + 1, (List.range' a (k - a)).map (2 ^ ·)⟩ := by
  intro n
  induction n with
  | zero =>
    intro m a k h1 h2 h3 h4 h5
    have ha : a = k := by omega
    subst ha
    rw [uploadLoop]
    simp only [h3, if_true]
    rw [h5]
    simp
  | succ n ih =>
    intro m a k h1 h2 h3 h4 h5
    by_cases hak : a = k
    · subst hak
      rw [uploadLoop]
      simp only [h3, if_true]
      rw [h5]
      simp
    · rw [uploadLoop]
      have halt : a < m := by omega
      simp only [halt, if_true]
      rw [h4 a (Nat.le_refl a) (by omega)]
      have hlast : ¬a = m - 1 := by omega
      simp only [hlast, if_false]
      rw [ih m (a + 1) k (by omega) (by omega) h3 (fun i hi1 hi2 => h4 i (by omega) hi2) h5]
      show (⟨.errNotFound, k + 1, 2 ^ a :: (List.range' (a + 1) (k - (a + 1))).map (2 ^ ·)⟩ : RetryRun) =
        ⟨.errNotFound, k + 1, (List.range' a (k - a)).map (2 ^ ·)⟩
      have hk : k - a = (k - (a + 1)) + 1 := by omega
      rw [hk, List.range'_succ]
      simp

theorem uploadLoop_stopPermission (outcome : Nat → AttemptOutcome) :
    ∀ n m a k, k - a ≤ n → a ≤ k → k < m →
      (∀ i, a ≤ i → i < k → outcome i = AttemptOutcome.transient) →
      outcome k = AttemptOutcome.permissionDenied →
      uploadLoop outcome m a = ⟨.errPermission, k + 1, (List.range' a (k - a)).map (2 ^ ·)⟩ := by
  intro n
  induction n with
  | zero =>
    intro m a k h1 h2 h3 h4 h5
    have ha : a = k := by omega
    subst ha
    rw [uploadLoop]
    simp only [h3, if_true]
    rw [h5]
    simp
  | succ n ih =>
    intro m a k h1 h2 h3 h4 h5
    by_cases hak : a = k
    · subst hak
      rw [uploadLoop]
      simp only [h3, if_true]
      rw [h5]
      simp
    · rw [uploadLoop]
      have halt : a < m := by omega
      simp only [halt, if_true]
      rw [h4 a (Nat.le_refl a) (by omega)]
      have hlast : ¬a = m - 1 := by omega
      simp only [hlast, if_false]
      rw [ih m (a + 1) k (by omega) (by omega) h3 (fun i hi1 hi2 => h4 i (by omega) hi2) h5]
      show (⟨.errPermission, k + 1, 2 ^ a :: (List.range' (a + 1) (k - (a + 1))).map (2 ^ ·)⟩ : RetryRun) =
        ⟨.errPermission, k + 1, (List.range' a (k - a)).map (2 ^ ·)⟩
      have hk : k - a = (k - (a + 1)) + 1 := by omega
      rw [hk, List.range'_succ]
      simp

/-- C3: the upload is attempted at most R times; the backoff delays
actually slept (`2 ^ attempt`) are pairwise non-decreasing; a target
failing transiently on every attempt is attempted exactly R times with the
full backoff sequence and a max-retry failure; a `file not found` or
`permission denied` at attempt k (after only transient attempts) returns a
failed result immediately at attempt k + 1 with no further retries. -/
theorem C3_upload_retry_bound (outcome : Nat → AttemptOutcome) (R : Nat) :
    (uploadFileWithRetry outcome R).attempts ≤ R ∧
    (uploadFileWithRetry outcome R).sleeps.Pairwise (· ≤ ·) ∧
    (0 < R → (∀ i, i < R → outcome i = AttemptOutcome.transient) →
      uploadFileWithRetry outcome R =
        ⟨.errMaxRetry, R, (List.range (R - 1)).map (2 ^ ·)⟩) ∧
    (∀ k, k < R → (∀ i, i < k → outcome i = AttemptOutcome.transient) →
      outcome k = AttemptOutcome.fileNotFound →
      uploadFileWithRetry outcome R =
        ⟨.errNotFound, k + 1, (List.range k).map (2 ^ ·)⟩) ∧
    (∀ k, k < R → (∀ i, i < k → outcome i = AttemptOutcome.transient) →
      outcome k = AttemptOutcome.permissionDenied →
      uploadFileWithRetry outcome R =
        ⟨.errPermission, k + 1, (List.range k).map (2 ^ ·)⟩) := by
  refine ⟨?_, ?_, ?_, ?_, ?_⟩
  · exact uploadLoop_attempts_le outcome R R 0 (by omega) (by omega)
  · rw [uploadFileWithRetry, uploadLoop_sleeps_shape outcome R R 0 (by omega)]
    exact List.Pairwise.map _ (fun a b hab => Nat.pow_le_pow_right (by norm_num) (le_of_lt hab))
      (List.pairwise_lt_range' _ _)
  · intro hR htrans
    rw [uploadFileWithRetry,
      uploadLoop_allTransient outcome R R 0 (by omega) hR (fun i _ hi => htrans i hi)]
    rw [List.range_eq_range']
    simp
  · intro k hk htrans hfnf
    rw [uploadFileWithRetry,
      uploadLoop_stopNotFound outcome k R 0 k (by omega) (by omega) hk
        (fun i _ hi => htrans i hi) hfnf]
    rw [List.range_eq_range']
    simp
  · intro k hk htrans hperm
    rw [uploadFileWithRetry,
      uploadLoop_stopPermission outcome k R 0 k (by omega) (by omega) hk
        (fun i _ hi => htrans i hi) hperm]
    rw [List.range_eq_range']
    simp

/-- C3 witness: with R = 3, an always-transient target is attempted exactly
3 times with non-decreasing backoff [1, 2]; an immediate `file not found`
fails after a single attempt with no retries. -/
theorem C3_upload_retry_bound_witness :
    uploadFileWithRetry (fun _ => AttemptOutcome.transient) 3 =
      ⟨.errMaxRetry, 3, [1, 2]⟩ ∧
    uploadFileWithRetry
        (fun i => if i = 0 then AttemptOutcome.fileNotFound else AttemptOutcome.transient) 3 =
      ⟨.errNotFound, 1, []⟩ := by
  constructor
  · have h := (C3_upload_retry_bound (fun _ => AttemptOutcome.transient) 3).2.2.1
      (by decide) (fun i _ => rfl)
    exact h.trans (by decide)
  · have h := (C3_upload_retry_bound
        (fun i => if i = 0 then AttemptOutcome.fileNotFound else AttemptOutcome.transient) 3).2.2.2.1
      0 (by decide) (fun i hi => absurd hi (Nat.not_lt_zero i)) (by decide)
    exact h.trans (by decide)

/- ### C4 — Upload coordinator completeness -/

theorem settledResult_file_path (raw : FileInfo → Except (List Char) UploadCore)
    (f : FileInfo) : (settledResult raw f).file_path = f.path := by
  unfold settledResult workerResult
  cases raw f with
  | ok core => rfl
  | error e => rfl

theorem parallelUpload_length (raw : FileInfo → Except (List Char) UploadCore)
    (files : List FileInfo) (order : List Nat) :
    (parallelUpload raw files order).length = files.length := by
  unfold parallelUpload
  suffices h : ∀ (acc : List (Option UploadResult)),
      (order.foldl
        (fun acc i =>
          match files.get? i with
          | some f => acc.set i (some (settledResult raw f))
          | none => acc) acc).length = acc.length by
    rw [h]
    exact List.length_replicate _ _
  induction order with
  | nil => intro acc; rfl
  | cons j rest ih =>
    intro acc
    rw [List.foldl_cons, ih]
    cases files.get? j with
    | some f => exact List.length_set acc j _
    | none => rfl

theorem parallelUpload_foldl_not_mem (raw : FileInfo → Except (List Char) UploadCore)
    (files : List FileInfo) :
    ∀ (order : List Nat) (acc : List (Option UploadResult)) (i : Nat), i ∉ order →
      (order.foldl
        (fun acc i =>
          match files.get? i with
          | some f => acc.set i (some (settledResult raw f))
          | none => acc) acc)[i]? = acc[i]? := by
  intro order
  induction order with
  | nil => intro acc i _; rfl
  | cons j rest ih =>
    intro acc i hi
    rw [List.foldl_cons]
    have hij : j ≠ i := fun h => hi (h ▸ List.mem_cons_self j rest)
    have hrest : i ∉ rest := fun h => hi (List.mem_cons_of_mem j h)
    rw [ih _ i hrest]
    cases files.get? j with
    | some f => exact List.getElem?_set_ne hij
    | none => rfl

theorem parallelUpload_foldl_mem (raw : FileInfo → Except (List Char) UploadCore)
    (files : List FileInfo) :
    ∀ (order : List Nat) (acc : List (Option UploadResult)),
      acc.length = files.length →
      ∀ i (f : FileInfo), files.get? i = some f → i ∈ order →
      (order.foldl
        (fun acc i =>
          match files.get? i with
          | some f => acc.set i (some (settledResult raw f))
          | none => acc) acc)[i]? = some (some (settledResult raw f)) := by
  intro order
  induction order with
  | nil => intro acc _ i f _ hmem; exact absurd hmem (List.not_mem_nil i)
  | cons j rest ih =>
    intro acc hlen i f hf hmem
    rw [List.foldl_cons]
    by_cases hrest : i ∈ rest
    · apply ih
      · cases files.get? j with
        | some g => rw [List.length_set]; exact hlen
        | none => exact hlen
      · exact hf
      · exact hrest
    · have hij : i = j := by
        rcases List.mem_cons.mp hmem with h | h
        · exact h
        · exact absurd h hrest
      subst hij
      rw [parallelUpload_foldl_not_mem raw files rest _ i hrest]
      rw [hf]
      have hil : i < acc.length := by
        rw [hlen]
        exact (List.get?_eq_some.mp hf).1
      exact List.getElem?_set_eq_of_lt _ hil

/-- C4: for every input list of N file tasks and every completion order of
the worker futures, the coordinator's result list has exactly N entries and
the entry at every position is populated (never `None`) with the settled
result for the task submitted at that position — a worker exception
becomes a failed fallback result — and that result carries the task's own
file path. -/
theorem C4_coordinator_complete (raw : FileInfo → Except (List Char) UploadCore)
    (files : List FileInfo) (order : List Nat)
    (hperm : order.Perm (List.range files.length)) :
    (parallelUpload raw files order).length = files.length ∧
    ∀ i (h : i < files.length),
      (parallelUpload raw files order)[i]? =
        some (some (settledResult raw (files.get ⟨i, h⟩))) ∧
      (settledResult raw (files.get ⟨i, h⟩)).file_path = (files.get ⟨i, h⟩).path := by
  refine ⟨parallelUpload_length raw files order, fun i h => ⟨?_, settledResult_file_path raw _⟩⟩
  unfold parallelUpload
  apply parallelUpload_foldl_mem raw files order _ (List.length_replicate _ _) i
  · rw [List.get?_eq_some]
    exact ⟨h, rfl⟩
  · exact hperm.mem_iff.mpr (List.mem_range.mpr h)

/-- C4 witness: two tasks whose workers both raise are settled as failed
fallback results at their own positions, with a full-length result list. -/
theorem C4_coordinator_complete_witness :
    (parallelUpload (fun _ => Except.error (toL "boom"))
      [⟨toL "a", 1, toL "d"⟩, ⟨toL "b", 2, toL "d"⟩] [1, 0]).length = 2 ∧
    (parallelUpload (fun _ => Except.error (toL "boom"))
      [⟨toL "a", 1, toL "d"⟩, ⟨toL "b", 2, toL "d"⟩] [1, 0])[0]? =
      some (some (settledResult (fun _ => Except.error (toL "boom")) ⟨toL "a", 1, toL "d"⟩)) := by
  have h := C4_coordinator_complete (fun _ => Except.error (toL "boom"))
    [⟨toL "a", 1, toL "d"⟩, ⟨toL "b", 2, toL "d"⟩] [1, 0] (by decide)
  exact ⟨h.1, (h.2 0 (by decide)).1⟩

/- ### C2 — Restore poll/download step relation -/

theorem pollEligible_headTransition (h : HeadResult) :
    pollEligible (headTransition h) = false := by
  cases h with
  | ok hh => cases hh <;> rfl
  | err e => cases e <;> rfl

/-- C2 (counterexample): an item that a transient query error moved to
`check_failed` is not re-queried on the next invocation — even when the
external state now reports the restore complete (the head query would map
to `completed`), the item stays `check_failed` because only `requested` and
`already_in_progress` items are polled.  The claim's "it is retried on the
next invocation, not abandoned" is false on the code. -/
theorem C2_counterexample :
    checkRestoreCompletion true (fun _ => HeadResult.ok RestoreHeader.ongoingFalse)
      [⟨0, RestoreStatus.checkFailed⟩] = [⟨0, RestoreStatus.checkFailed⟩] ∧
    headTransition (HeadResult.ok RestoreHeader.ongoingFalse) = RestoreStatus.completed :=
  ⟨rfl, rfl⟩

/-- C2 (amended): on each invocation every `requested`/`already_in_progress`
item is queried and transitions by the response (to `check_failed` when the
client fails to initialize); every other item — including `check_failed`
ones, which are NOT re-queried on the next invocation — is left untouched;
a second invocation with no external status change produces identical item
states; no item regresses from `completed`; and a completed item whose
destination file already exists (e.g. it was downloaded by a previous
invocation) is skipped, not downloaded a second time. -/
theorem C2_restore_poll_step (initOk : Bool) (env : Nat → HeadResult)
    (items : List RestoreItem) :
    (∀ (i : Nat) (it : RestoreItem), items[i]? = some it → pollEligible it.status = true →
      (checkRestoreCompletion initOk env items)[i]? =
        some (if initOk then { it with status := headTransition (env it.key) }
              else { it with status := RestoreStatus.checkFailed })) ∧
    (∀ (i : Nat) (it : RestoreItem), items[i]? = some it → pollEligible it.status = false →
      (checkRestoreCompletion initOk env items)[i]? = some it) ∧
    (∀ (i : Nat) (it : RestoreItem), items[i]? = some it →
      it.status = RestoreStatus.checkFailed →
      (checkRestoreCompletion initOk env items)[i]? = some it) ∧
    (checkRestoreCompletion initOk env (checkRestoreCompletion true env items) =
      checkRestoreCompletion true env items) ∧
    (∀ (i : Nat) (it : RestoreItem), items[i]? = some it →
      it.status = RestoreStatus.completed →
      (checkRestoreCompletion initOk env items)[i]? = some it) ∧
    (∀ (fsFiles : List (List Char)) (dest : List Char),
      (placeCompletedFile true (placeCompletedFile true fsFiles dest).2 dest).1 =
        DownloadStatus.skipped) := by
  refine ⟨?_, ?_, ?_, ?_, ?_, ?_⟩
  · intro i it hit hp
    unfold checkRestoreCompletion
    rw [List.getElem?_map, hit]
    simp only [Option.map_some']
    rw [if_pos hp]
  · intro i it hit hp
    unfold checkRestoreCompletion
    rw [List.getElem?_map, hit]
    simp only [Option.map_some']
    rw [if_neg (by simp [hp])]
  · intro i it hit hst
    unfold checkRestoreCompletion
    rw [List.getElem?_map, hit]
    simp only [Option.map_some']
    rw [if_neg (by simp [pollEligible, hst])]
  · unfold checkRestoreCompletion
    rw [List.map_map]
    apply List.map_congr_left
    intro it _
    by_cases hp : pollEligible it.status = true
    · simp only [Function.comp_apply, if_pos hp]
      rw [if_neg (by simp [pollEligible_headTransition])]
    · simp only [Function.comp_apply, if_neg hp, if_neg hp]
  · intro i it hit hst
    unfold checkRestoreCompletion
    rw [List.getElem?_map, hit]
    simp only [Option.map_some']
    rw [if_neg (by simp [pollEligible, hst])]
  · intro fsFiles dest
    by_cases hmem : dest ∈ fsFiles
    · simp [placeCompletedFile, hmem]
    · simp [placeCompletedFile, hmem]

/-- C2 witness: a `requested` item whose restore has finished transitions
to `completed` on the poll invocation. -/
theorem C2_restore_poll_step_witness :
    (checkRestoreCompletion true (fun _ => HeadResult.ok RestoreHeader.ongoingFalse)
      [⟨0, RestoreStatus.requested⟩])[0]? = some ⟨0, RestoreStatus.completed⟩ := by
  have h := (C2_restore_poll_step true (fun _ => HeadResult.ok RestoreHeader.ongoingFalse)
      [⟨0, RestoreStatus.requested⟩]).1 0 ⟨0, RestoreStatus.requested⟩ rfl (by decide)
  exact h.trans (by decide)

/- ### C5 — Discovery filters and idempotence -/

theorem takeWhile_append_all {α : Type} (p : α → Bool) (xs ys : List α)
    (h : ∀ x ∈ xs, p x = true) :
    (xs ++ ys).takeWhile p = xs ++ ys.takeWhile p := by
  induction xs with
  | nil => rfl
  | cons x xs ih =>
    rw [List.cons_append, List.takeWhile_cons_of_pos (h x (List.mem_cons_self x xs)),
      ih (fun y hy => h y (List.mem_cons_of_mem x hy)), List.cons_append]

theorem takeWhile_all {α : Type} (p : α → Bool) (l : List α)
    (h : ∀ x ∈ l, p x = true) : l.takeWhile p = l := by
  induction l with
  | nil => rfl
  | cons x xs ih =>
    rw [List.takeWhile_cons_of_pos (h x (List.mem_cons_self x xs)),
      ih (fun y hy => h y (List.mem_cons_of_mem x hy))]

theorem ntBasename_sepFree (s : List Char) (h : ∀ c ∈ s, isSep c = false) :
    ntBasename s = s := by
  unfold ntBasename
  rw [takeWhile_all (fun c => !isSep c) s.reverse
    (fun c hc => by simp [h c (List.mem_reverse.mp hc)])]
  exact List.reverse_reverse s

theorem ntBasename_append_sep (a name : List Char) (c : Char) (hc : isSep c = true)
    (hsep : ∀ x ∈ name, isSep x = false) :
    ntBasename (a ++ c :: name) = name := by
  unfold ntBasename
  rw [List.reverse_append, List.reverse_cons, List.append_assoc]
  rw [takeWhile_append_all (fun x => !isSep x) name.reverse _
    (fun x hx => by simp [hsep x (List.mem_reverse.mp hx)])]
  rw [List.singleton_append, List.takeWhile_cons_of_neg (by rw [hc]; exact Bool.false_ne_true)]
  rw [List.append_nil, List.reverse_reverse]

theorem ntBasename_ntJoin (root name : List Char) (hne : name ≠ [])
    (hsep : ∀ c ∈ name, isSep c = false) (hcolon : root.getLast? ≠ some ':') :
    ntBasename (ntJoin root name) = name := by
  obtain ⟨c0, name', rfl⟩ : ∃ c0 name', name = c0 :: name' := by
    cases name with
    | nil => exact absurd rfl hne
    | cons c0 name' => exact ⟨c0, name', rfl⟩
  have hc0 : isSep c0 = false := hsep c0 (List.mem_cons_self c0 name')
  unfold ntJoin
  rw [if_neg ?hb1]
  case hb1 =>
    intro h
    rcases h with h | h <;>
      (simp only [List.head?_cons, Option.some.injEq] at h; subst h; simp [isSep] at hc0)
  by_cases hroot : root = []
  · rw [if_pos hroot]
    exact ntBasename_sepFree _ hsep
  · rw [if_neg hroot]
    by_cases hlast : root.getLast? = some '\\' ∨ root.getLast? = some '/' ∨
        root.getLast? = some ':'
    · rw [if_pos hlast]
      have hsep' : ∃ c, root.getLast? = some c ∧ isSep c = true := by
        rcases hlast with h | h | h
        · exact ⟨'\\', h, rfl⟩
        · exact ⟨'/', h, rfl⟩
        · exact absurd h hcolon
      obtain ⟨c, hc, hcsep⟩ := hsep'
      have hgl : root.getLast hroot = c := by
        have := List.getLast?_eq_getLast root hroot
        rw [this] at hc
        exact Option.some.inj hc
      have hsplit : root.dropLast ++ [c] = root := by
        rw [← hgl]
        exact List.dropLast_append_getLast hroot
      conv_lhs => rw [← hsplit]
      rw [List.append_assoc, List.singleton_append]
      exact ntBasename_append_sep _ _ c hcsep hsep
    · rw [if_neg hlast]
      exact ntBasename_append_sep _ _ '\\' rfl hsep

/-- C5: over any filesystem whose walk yields well-formed filenames
(nonempty, separator-free, under roots not ending in a bare drive colon),
every task discovery produces has a basename that does not bear the archive
marker suffix, a lowercased extension outside the exclusion list, and a
size within the ceiling; consequently a second discovery pass selects zero
tasks for already-archived (marker-suffixed) files; and an oversized file
is skipped invisibly — removing it from the filesystem leaves the output
(tasks and absence of error records) unchanged. -/
theorem C5_discovery_filters (cfg : DiscoveryConfig) (dirs : List FsDir)
    (hfiles : ∀ d ∈ dirs, ∀ fl ∈ d.files,
      fl.name ≠ [] ∧ (∀ c ∈ fl.name, isSep c = false) ∧ fl.root.getLast? ≠ some ':') :
    (∀ t ∈ collectFiles cfg dirs,
      isArchivedFile (ntBasename t.path) cfg.archivedSuffix = false ∧
      lowerL (splitextExt (ntBasename t.path)) ∉ cfg.excludeExts ∧
      t.size ≤ cfg.maxFileSize) ∧
    ((collectFiles cfg dirs).filter
      (fun t => isArchivedFile (ntBasename t.path) cfg.archivedSuffix) = []) ∧
    (∀ (dpath : List Char) (wok : Bool) (pre post : List FsFile) (fl : FsFile)
        (ds₁ ds₂ : List FsDir), cfg.maxFileSize < fl.size →
      collectFiles cfg (ds₁ ++ ⟨dpath, wok, pre ++ fl :: post⟩ :: ds₂) =
      collectFiles cfg (ds₁ ++ ⟨dpath, wok, pre ++ post⟩ :: ds₂)) := by
  have hmain : ∀ t ∈ collectFiles cfg dirs,
      isArchivedFile (ntBasename t.path) cfg.archivedSuffix = false ∧
      lowerL (splitextExt (ntBasename t.path)) ∉ cfg.excludeExts ∧
      t.size ≤ cfg.maxFileSize := by
    intro t ht
    rw [collectFiles, List.mem_flatMap] at ht
    obtain ⟨d, hd, htd⟩ := ht
    rw [collectDirFiles] at htd
    by_cases hwalk : d.walkOk = true
    · rw [if_pos hwalk, List.mem_filterMap] at htd
      obtain ⟨fl, hfl, hsome⟩ := htd
      obtain ⟨hn, hs, hr⟩ := hfiles d hd fl hfl
      split_ifs at hsome with h1 h2 h3 h4 <;> try exact Option.noConfusion hsome
      have ht' : t = ⟨ntJoin fl.root fl.name, fl.size, d.path⟩ := (Option.some.inj hsome).symm
      subst ht'
      have hbase : ntBasename (ntJoin fl.root fl.name) = fl.name :=
        ntBasename_ntJoin fl.root fl.name hn hs hr
      refine ⟨?_, ?_, ?_⟩
      · simp only [hbase]
        simpa using h1
      · simp only [hbase]
        exact h2
      · simpa using Nat.le_of_not_lt h4
    · rw [if_neg hwalk] at htd
      exact absurd htd (List.not_mem_nil t)
  refine ⟨hmain, ?_, ?_⟩
  · rw [List.filter_eq_nil_iff]
    intro t ht
    rw [(hmain t ht).1]
    exact Bool.false_ne_true
  · intro dpath wok pre post fl ds₁ ds₂ hsize
    rw [collectFiles, collectFiles, List.flatMap_append, List.flatMap_append,
      List.flatMap_cons, List.flatMap_cons]
    congr 1
    congr 1
    rw [collectDirFiles, collectDirFiles]
    by_cases hwalk : wok = true
    · rw [if_pos hwalk, if_pos hwalk]
      rw [List.filterMap_append, List.filterMap_append, List.filterMap_cons]
      have hnone :
          (if isArchivedFile fl.name cfg.archivedSuffix = true then none
           else if lowerL (splitextExt fl.name) ∈ cfg.excludeExts then none
           else if ¬fl.statOk = true then none
           else if cfg.maxFileSize < fl.size then none
           else some (⟨ntJoin fl.root fl.name, fl.size, dpath⟩ : FileTask)) = none := by
        split_ifs <;> first | rfl | omega
      rw [hnone]
    · rw [if_neg hwalk, if_neg hwalk]

/-- C5 witness: a directory holding a normal file, an already-archived
marker, an excluded-extension file, and an oversized file yields zero tasks
for marker-suffixed files. -/
theorem C5_discovery_filters_witness :
    ((collectFiles ⟨[toL ".tmp"], 100, toL ".archived"⟩
      [⟨toL "\\\\srv\\share", true,
        [⟨toL "\\\\srv\\share", toL "a.txt", 10, true⟩,
         ⟨toL "\\\\srv\\share", toL "b.txt.archived", 0, true⟩,
         ⟨toL "\\\\srv\\share", toL "c.tmp", 5, true⟩,
         ⟨toL "\\\\srv\\share", toL "big.dat", 1000, true⟩]⟩]).filter
      (fun t => isArchivedFile (ntBasename t.path) (toL ".archived"))) = [] :=
  (C5_discovery_filters ⟨[toL ".tmp"], 100, toL ".archived"⟩ _ (by decide)).2.1

/- ### C6 — Restore path round-trip -/

/-- C6: for a directory-mode restore whose normalized original path equals
the normalized, separator-terminated requested root followed by a nonempty
remainder, the computed relative path is exactly that remainder and the
download destination is the target directory joined with it; in file mode
the destination is the target directory joined with the basename of the
original path. -/
theorem C6_restore_path_roundtrip (orig restorePath T rem : List Char)
    (h : slashToBack orig = normalizedRoot restorePath ++ rem) (hrem : rem ≠ []) :
    calculateRelativePath RestoreMode.directory orig restorePath = rem ∧
    downloadDestination RestoreMode.directory T orig
      (calculateRelativePath RestoreMode.directory orig restorePath) = ntJoin T rem ∧
    ∀ rel, downloadDestination RestoreMode.file T orig rel = ntJoin T (ntBasename orig) := by
  have hrel : calculateRelativePath RestoreMode.directory orig restorePath = rem := by
    unfold calculateRelativePath
    rw [h]
    rw [if_pos (by rw [List.isPrefixOf_iff_prefix]; exact List.prefix_append _ _)]
    rw [List.drop_left]
    rw [if_neg hrem]
  exact ⟨hrel, by rw [hrel]; rfl, fun rel => rfl⟩

/-- C6 witness: the spec's example — original `root\a\b\file.txt`, root
`root\`, target `T` — lands at `T\a\b\file.txt`. -/
theorem C6_restore_path_roundtrip_witness :
    calculateRelativePath RestoreMode.directory (toL "root\\a\\b\\file.txt") (toL "root\\") =
      toL "a\\b\\file.txt" ∧
    downloadDestination RestoreMode.directory (toL "T") (toL "root\\a\\b\\file.txt")
      (calculateRelativePath RestoreMode.directory (toL "root\\a\\b\\file.txt") (toL "root\\")) =
      toL "T\\a\\b\\file.txt" := by
  have h := C6_restore_path_roundtrip (toL "root\\a\\b\\file.txt") (toL "root\\") (toL "T")
    (toL "a\\b\\file.txt") (by decide) (by decide)
  exact ⟨h.1, h.2.1.trans (by decide)⟩

/- ### C7 — Deterministic S3 key derivation -/

theorem splitOnChar_ne_nil (sep : Char) (s : List Char) : splitOnChar sep s ≠ [] := by
  cases s with
  | nil => simp [splitOnChar]
  | cons c cs =>
    rw [splitOnChar]
    cases h : splitOnChar sep cs with
    | nil => simp
    | cons h t =>
      by_cases hc : c = sep
      · simp [hc]
      · simp [hc]

theorem splitOnChar_noSep (sep : Char) (x : List Char) (h : ∀ c ∈ x, c ≠ sep) :
    splitOnChar sep x = [x] := by
  induction x with
  | nil => rfl
  | cons c cs ih =>
    rw [splitOnChar, ih (fun d hd => h d (List.mem_cons_of_mem c hd))]
    simp [h c (List.mem_cons_self c cs)]

theorem splitOnChar_append_sep (sep : Char) (x rest : List Char) (h : ∀ c ∈ x, c ≠ sep) :
    splitOnChar sep (x ++ sep :: rest) = x :: splitOnChar sep rest := by
  induction x with
  | nil =>
    rw [List.nil_append, splitOnChar]
    obtain ⟨h0, t0, hrest⟩ : ∃ h0 t0, splitOnChar sep rest = h0 :: t0 := by
      cases hr : splitOnChar sep rest with
      | nil => exact absurd hr (splitOnChar_ne_nil sep rest)
      | cons h0 t0 => exact ⟨h0, t0, rfl⟩
    rw [hrest]
    simp
  | cons c cs ih =>
    rw [List.cons_append, splitOnChar, ih (fun d hd => h d (List.mem_cons_of_mem c hd))]
    have hcs : splitOnChar sep rest ≠ [] := splitOnChar_ne_nil sep rest
    obtain ⟨h0, t0, hr⟩ : ∃ h0 t0, splitOnChar sep rest = h0 :: t0 := by
      cases hq : splitOnChar sep rest with
      | nil => exact absurd hq hcs
      | cons h0 t0 => exact ⟨h0, t0, rfl⟩
    rw [hr]
    simp [h c (List.mem_cons_self c cs)]

theorem splitOnChar_join (sep : Char) (xs : List (List Char)) (hne : xs ≠ [])
    (h : ∀ x ∈ xs, ∀ c ∈ x, c ≠ sep) :
    splitOnChar sep (joinChar sep xs) = xs := by
  induction xs with
  | nil => exact absurd rfl hne
  | cons x ys ih =>
    cases ys with
    | nil => exact splitOnChar_noSep sep x (h x (List.mem_cons_self x []))
    | cons y ys' =>
      rw [joinChar]
      rw [splitOnChar_append_sep sep x _ (h x (List.mem_cons_self x _))]
      rw [ih (by simp) (fun z hz => h z (List.mem_cons_of_mem x hz))]

theorem normalizeToSlash_noBackslash (s : List Char) (h : ∀ c ∈ s, c ≠ '\\') :
    normalizeToSlash s = s := by
  unfold normalizeToSlash
  rw [List.map_congr_left (fun c hc => by rw [if_neg (h c hc)]), List.map_id']

theorem normalizeToSlash_join (xs : List (List Char)) (h : ∀ x ∈ xs, ∀ c ∈ x, c ≠ '\\') :
    normalizeToSlash (joinChar '\\' xs) = joinChar '/' xs := by
  induction xs with
  | nil => rfl
  | cons x ys ih =>
    cases ys with
    | nil => exact normalizeToSlash_noBackslash x (h x (List.mem_cons_self x []))
    | cons y ys' =>
      rw [joinChar, joinChar]
      unfold normalizeToSlash
      rw [List.map_append, List.map_cons]
      unfold normalizeToSlash at ih
      rw [ih (fun z hz => h z (List.mem_cons_of_mem x hz))]
      rw [show (if ('\\' : Char) = '\\' then '/' else '\\') = '/' from rfl]
      rw [show List.map (fun c => if c = '\\' then '/' else c) x = x from
        normalizeToSlash_noBackslash x (h x (List.mem_cons_self x _))]

theorem filter_nonEmpty_all (xs : List (List Char)) (h : ∀ x ∈ xs, x ≠ []) :
    xs.filter (fun part => !part.isEmpty) = xs :=
  List.filter_eq_self.mpr (fun x hx => by simp [h x hx])

theorem dropWhile_slash_noop (key : List Char) (c0 : Char) (cs : List Char)
    (hkey : key = c0 :: cs) (hc0 : c0 ≠ '/') :
    key.dropWhile (fun c => decide (c = '/')) = key := by
  subst hkey
  rw [List.dropWhile_cons_of_neg (by simp [hc0])]

theorem s3KeyPost_fixed (xs : List (List Char)) (hne : xs ≠ [])
    (hseg : ∀ x ∈ xs, x ≠ [] ∧ ∀ c ∈ x, c ≠ '/') :
    joinChar '/'
      (((splitOnChar '/' ((joinChar '/' xs).dropWhile (fun c => decide (c = '/')))).filter
        (fun part => !part.isEmpty))) = joinChar '/' xs := by
  obtain ⟨x, rest, rfl⟩ : ∃ x rest, xs = x :: rest := by
    cases xs with
    | nil => exact absurd rfl hne
    | cons x rest => exact ⟨x, rest, rfl⟩
  obtain ⟨c0, t0, rfl⟩ : ∃ c0 t0, x = c0 :: t0 := by
    cases x with
    | nil => exact absurd rfl (hseg [] (List.mem_cons_self [] rest)).1
    | cons c0 t0 => exact ⟨c0, t0, rfl⟩
  have hc0 : c0 ≠ '/' := (hseg _ (List.mem_cons_self _ rest)).2 c0 (List.mem_cons_self c0 t0)
  have hdrop : (joinChar '/' ((c0 :: t0) :: rest)).dropWhile (fun c => decide (c = '/')) =
      joinChar '/' ((c0 :: t0) :: rest) := by
    cases rest with
    | nil => exact dropWhile_slash_noop _ c0 t0 rfl hc0
    | cons y ys =>
      exact dropWhile_slash_noop _ c0 (t0 ++ '/' :: joinChar '/' (y :: ys)) rfl hc0
  rw [hdrop, splitOnChar_join '/' _ (by simp) (fun z hz => (hseg z hz).2),
    filter_nonEmpty_all _ (fun z hz => (hseg z hz).1)]

theorem generateS3KeyCore_unc (server : List Char) (segs : List (List Char))
    (hs : server ≠ []) (hsc : ∀ c ∈ server, c ≠ '/' ∧ c ≠ '\\')
    (hsegs : segs ≠ []) (hsegc : ∀ s ∈ segs, s ≠ [] ∧ ∀ c ∈ s, c ≠ '/' ∧ c ≠ '\\') :
    generateS3KeyCore (toL "\\\\" ++ joinChar '\\' (server :: segs)) =
      joinChar '/' (server :: segs) := by
  obtain ⟨y, ys, rfl⟩ : ∃ y ys, segs = y :: ys := by
    cases segs with
    | nil => exact absurd rfl hsegs
    | cons y ys => exact ⟨y, ys, rfl⟩
  have hnorm : normalizeToSlash (toL "\\\\" ++ joinChar '\\' (server :: y :: ys)) =
      '/' :: '/' :: joinChar '/' (server :: y :: ys) := by
    show normalizeToSlash ('\\' :: '\\' :: joinChar '\\' (server :: y :: ys)) = _
    have hj := normalizeToSlash_join (server :: y :: ys)
      (fun z hz c hc => by
        rcases List.mem_cons.mp hz with h | h
        · exact ((hsc c (h ▸ hc)).2)
        · exact ((hsegc z h).2 c hc).2)
    unfold normalizeToSlash at hj ⊢
    rw [List.map_cons, List.map_cons, hj]
    rfl
  rw [generateS3KeyCore, hnorm]
  rw [if_pos (show List.take 2 ('/' :: '/' :: joinChar '/' (server :: y :: ys)) = toL "//"
    from rfl)]
  have hdrop2 : List.drop 2 ('/' :: '/' :: joinChar '/' (server :: y :: ys)) =
      joinChar '/' (server :: y :: ys) := rfl
  rw [hdrop2]
  rw [splitOnChar_join '/' (server :: y :: ys) (by simp)
    (fun z hz c hc => by
      rcases List.mem_cons.mp hz with h | h
      · exact (hsc c (h ▸ hc)).1
      · exact ((hsegc z h).2 c hc).1)]
  show joinChar '/'
      (((splitOnChar '/' ((if (y :: ys : List (List Char)) = [] then server ++ toL "/root"
          else server ++ '/' :: joinChar '/' (y :: ys)).dropWhile
            (fun c => decide (c = '/')))).filter (fun part => !part.isEmpty))) =
    joinChar '/' (server :: y :: ys)
  rw [if_neg (by simp : ¬(y :: ys : List (List Char)) = [])]
  have hkey : server ++ '/' :: joinChar '/' (y :: ys) = joinChar '/' (server :: y :: ys) := rfl
  rw [hkey]
  exact s3KeyPost_fixed (server :: y :: ys) (by simp)
    (fun z hz => by
      rcases List.mem_cons.mp hz with h | h
      · exact ⟨h ▸ hs, fun c hc => (hsc c (h ▸ hc)).1⟩
      · exact ⟨(hsegc z h).1, fun c hc => ((hsegc z h).2 c hc).1⟩)

theorem generateS3KeyCore_drive (c : Char) (segs : List (List Char))
    (hc : c ≠ '\\') (hcl : Char.toLower c ≠ '/')
    (hsegs : segs ≠ []) (hsegc : ∀ s ∈ segs, s ≠ [] ∧ ∀ ch ∈ s, ch ≠ '/' ∧ ch ≠ '\\') :
    generateS3KeyCore (c :: ':' :: '\\' :: joinChar '\\' segs) =
      toL "local_" ++ Char.toLower c :: '/' :: joinChar '/' segs := by
  obtain ⟨y, ys, rfl⟩ : ∃ y ys, segs = y :: ys := by
    cases segs with
    | nil => exact absurd rfl hsegs
    | cons y ys => exact ⟨y, ys, rfl⟩
  have hnorm : normalizeToSlash (c :: ':' :: '\\' :: joinChar '\\' (y :: ys)) =
      c :: ':' :: '/' :: joinChar '/' (y :: ys) := by
    have hj := normalizeToSlash_join (y :: ys)
      (fun z hz ch hch => ((hsegc z hz).2 ch hch).2)
    unfold normalizeToSlash at hj ⊢
    rw [List.map_cons, List.map_cons, List.map_cons, hj]
    simp [hc]
  rw [generateS3KeyCore, hnorm]
  rw [if_neg ?hcond1]
  case hcond1 =>
    intro h
    have h' : ([c, ':'] : List Char) = ['/', '/'] := h
    simp at h'
  rw [if_pos (show 2 < (c :: ':' :: '/' :: joinChar '/' (y :: ys)).length ∧
      (c :: ':' :: '/' :: joinChar '/' (y :: ys)).get? 1 = some ':' from
    ⟨by simp only [List.length_cons]; omega, rfl⟩)]
  show joinChar '/'
      (((splitOnChar '/' ((toL "local_" ++ Char.toLower c :: '/' :: joinChar '/' (y :: ys)).dropWhile
        (fun ch => decide (ch = '/')))).filter (fun part => !part.isEmpty))) = _
  have hkey : toL "local_" ++ Char.toLower c :: '/' :: joinChar '/' (y :: ys) =
      joinChar '/' ((toL "local_" ++ [Char.toLower c]) :: y :: ys) := by
    rw [joinChar, List.append_assoc]
    rfl
  rw [hkey]
  rw [s3KeyPost_fixed ((toL "local_" ++ [Char.toLower c]) :: y :: ys) (by simp)
    (fun z hz => by
      rcases List.mem_cons.mp hz with h | h
      · subst h
        refine ⟨by simp, fun ch hch => ?_⟩
        have hlocal : ∀ d ∈ toL "local_", d ≠ '/' := by decide
        rcases List.mem_append.mp hch with h' | h'
        · exact hlocal ch h'
        · rw [List.mem_singleton.mp h']
          exact hcl
      · exact ⟨(hsegc z h).1, fun ch hch => ((hsegc z h).2 ch hch).1⟩)]

theorem generateS3KeyCore_other (p : List Char)
    (hnb : ∀ ch ∈ p, ch ≠ '\\')
    (htake : ¬List.take 2 p = toL "//")
    (hdrv : ¬(2 < p.length ∧ p.get? 1 = some ':'))
    (hflt : (splitOnChar '/' p).filter (fun part => !part.isEmpty) ≠ []) :
    generateS3KeyCore p =
      toL "other/" ++ joinChar '/' ((splitOnChar '/' p).filter (fun part => !part.isEmpty)) := by
  have hnorm : normalizeToSlash p = p := normalizeToSlash_noBackslash p hnb
  rw [generateS3KeyCore, hnorm]
  rw [if_neg htake, if_neg hdrv]
  have hsplit1 : toL "other/" ++ p = toL "other" ++ '/' :: p := rfl
  rw [hsplit1]
  rw [dropWhile_slash_noop (toL "other" ++ '/' :: p) 'o' (toL "ther" ++ '/' :: p) rfl
    (by decide)]
  rw [splitOnChar_append_sep '/' (toL "other") p (by decide)]
  rw [List.filter_cons_of_pos (by decide)]
  obtain ⟨f0, frest, hf⟩ : ∃ f0 frest,
      (splitOnChar '/' p).filter (fun part => !part.isEmpty) = f0 :: frest := by
    cases hq : (splitOnChar '/' p).filter (fun part => !part.isEmpty) with
    | nil => exact absurd hq hflt
    | cons f0 frest => exact ⟨f0, frest, rfl⟩
  rw [hf]
  rfl

/-- C7: key derivation is deterministic and total — a UNC path
`\\server\share\...` maps to the key `server/share/...`; a drive-letter
path `c:\...` maps to `local_c/...` (drive lowercased); any other
backslash-free path maps to `other/` followed by the path with leading
slashes stripped and empty segments removed; and when derivation raises,
the fallback key `fallback/<timestamp>/<filename>` is produced, so every
input yields a key. -/
theorem C7_s3_key_derivation :
    (∀ (server : List Char) (segs : List (List Char)),
      server ≠ [] → (∀ c ∈ server, c ≠ '/' ∧ c ≠ '\\') →
      segs ≠ [] → (∀ s ∈ segs, s ≠ [] ∧ ∀ c ∈ s, c ≠ '/' ∧ c ≠ '\\') →
      generateS3KeyCore (toL "\\\\" ++ joinChar '\\' (server :: segs)) =
        joinChar '/' (server :: segs)) ∧
    (∀ (c : Char) (segs : List (List Char)),
      c ≠ '\\' → Char.toLower c ≠ '/' → segs ≠ [] →
      (∀ s ∈ segs, s ≠ [] ∧ ∀ ch ∈ s, ch ≠ '/' ∧ ch ≠ '\\') →
      generateS3KeyCore (c :: ':' :: '\\' :: joinChar '\\' segs) =
        toL "local_" ++ Char.toLower c :: '/' :: joinChar '/' segs) ∧
    (∀ (p : List Char), (∀ ch ∈ p, ch ≠ '\\') → ¬List.take 2 p = toL "//" →
      ¬(2 < p.length ∧ p.get? 1 = some ':') →
      (splitOnChar '/' p).filter (fun part => !part.isEmpty) ≠ [] →
      generateS3KeyCore p =
        toL "other/" ++ joinChar '/' ((splitOnChar '/' p).filter (fun part => !part.isEmpty))) ∧
    (∀ (timestamp filePath : List Char),
      generateS3Key true timestamp filePath =
        toL "fallback/" ++ timestamp ++ '/' :: ntBasename filePath ∧
      generateS3Key false timestamp filePath = generateS3KeyCore filePath) :=
  ⟨generateS3KeyCore_unc, generateS3KeyCore_drive, generateS3KeyCore_other,
   fun timestamp filePath => ⟨rfl, rfl⟩⟩

/-- C7 witness: `\\server\share\docs` yields `server/share/docs`, and
`C:\data\a.txt` yields `local_c/data/a.txt`. -/
theorem C7_s3_key_derivation_witness :
    generateS3KeyCore (toL "\\\\server\\share\\docs") = toL "server/share/docs" ∧
    generateS3KeyCore (toL "C:\\data\\a.txt") = toL "local_c/data/a.txt" := by
  constructor
  · have h := C7_s3_key_derivation.1 (toL "server") [toL "share", toL "docs"]
      (by decide) (by decide) (by decide) (by decide)
    exact h.trans (by decide)
  · have h := C7_s3_key_derivation.2.1 'C' [toL "data", toL "a.txt"]
      (by decide) (by decide) (by decide) (by decide)
    exact h.trans (by decide)

/- ### C8 — Loader duplicate handling and order -/

theorem validateDirectoryPath_reason_ne_nil (fs : List Char → PathInfo)
    (q r : List Char) (h : validateDirectoryPath fs q = some r) : r ≠ [] := by
  unfold validateDirectoryPath at h
  by_cases h0 : stripWs q = []
  · rw [if_pos h0] at h
    injection h with h'
    subst h'
    decide
  · rw [if_neg h0] at h
    split at h
    · injection h with h'
      subst h'
      simp
    · split_ifs at h <;> first
        | (injection h with h'; subst h'; decide)
        | exact Option.noConfusion h

theorem validateCsvLines_errors (fs : List Char → PathInfo) :
    ∀ elist : List (Nat × List Char), ∀ e ∈ (validateCsvLines fs elist).2,
      validateDirectoryPath fs e.path = some e.reason ∧ e.reason ≠ [] := by
  intro elist
  induction elist with
  | nil => intro e he; exact absurd he (List.not_mem_nil e)
  | cons q rest ih =>
    intro e he
    rw [validateCsvLines] at he
    split_ifs at he with h1 h2
    · exact ih e he
    · exact ih e he
    · split at he
      · exact ih e he
      · rename_i reason hv
        rcases List.mem_cons.mp he with h | h
        · subst h
          exact ⟨hv, validateDirectoryPath_reason_ne_nil fs _ _ hv⟩
        · exact ih e h

theorem validateCsvLines_sublist (fs : List Char → PathInfo) :
    ∀ elist : List (Nat × List Char),
      ((validateCsvLines fs elist).1).Sublist (elist.map (fun p => stripWs p.2)) := by
  intro elist
  induction elist with
  | nil => simp [validateCsvLines]
  | cons q rest ih =>
    rw [validateCsvLines, List.map_cons]
    split_ifs with h1 h2
    · exact ih.cons _
    · exact ih.cons _
    · split
      · show (stripWs q.2 :: (validateCsvLines fs rest).1).Sublist
          (stripWs q.2 :: rest.map (fun p => stripWs p.2))
        exact ih.cons₂ _
      · show ((validateCsvLines fs rest).1).Sublist
          (stripWs q.2 :: rest.map (fun p => stripWs p.2))
        exact ih.cons _

theorem validateCsvLines_append (fs : List Char → PathInfo) :
    ∀ xs ys : List (Nat × List Char),
      validateCsvLines fs (xs ++ ys) =
        ((validateCsvLines fs xs).1 ++ (validateCsvLines fs ys).1,
         (validateCsvLines fs xs).2 ++ (validateCsvLines fs ys).2) := by
  intro xs ys
  induction xs with
  | nil => simp [validateCsvLines]
  | cons q rest ih =>
    rw [List.cons_append, validateCsvLines, validateCsvLines]
    split_ifs with h1 h2
    · exact ih
    · exact ih
    · cases hv : validateDirectoryPath fs (stripWs q.2) with
      | none => simp [hv, ih]
      | some reason => simp [hv, ih]

/-- C8 (counterexample): a manifest carrying the same valid path on two
lines yields both occurrences as valid entries and zero error items — the
duplicate is neither merged nor recorded as an error, contradicting the
claim that each duplicate occurrence becomes an error item. -/
theorem C8_counterexample :
    validateCsvInput (fun _ => ⟨true, true, true⟩)
      [toL "\\\\srv\\share", toL "\\\\srv\\share"] =
      ([toL "\\\\srv\\share", toL "\\\\srv\\share"], []) := by
  decide

/-- C8 (amended): valid lines become entries in their original input order
(the valid list is an order-preserving sublist of the stripped lines);
every error item carries the human-readable reason its line's validation
produced (in particular a valid path never appears as an error, however
often it occurs); and appending a further occurrence of an already-valid
path — a duplicate — appends it as one more valid entry and produces no
error item: duplicates are accepted, not merged and not errored. -/
theorem C8_loader_order_and_duplicates (fs : List Char → PathInfo)
    (lines : List (List Char)) (p : List Char)
    (hstrip : stripWs p = p) (hpne : p ≠ [])
    (hvalid : validateDirectoryPath fs p = none) (hlines : lines ≠ []) :
    (((validateCsvInput fs lines).1).Sublist (lines.map stripWs)) ∧
    (∀ e ∈ (validateCsvInput fs lines).2,
      validateDirectoryPath fs e.path = some e.reason ∧ e.reason ≠ []) ∧
    (validateCsvInput fs (lines ++ [p]) =
      ((validateCsvInput fs lines).1 ++ [p], (validateCsvInput fs lines).2)) := by
  refine ⟨?_, ?_, ?_⟩
  · have h := validateCsvLines_sublist fs lines.enum
    rw [validateCsvInput]
    have hmap : lines.enum.map (fun p => stripWs p.2) = lines.map stripWs := by
      rw [show (fun p : Nat × List Char => stripWs p.2) = stripWs ∘ Prod.snd from rfl]
      rw [← List.map_map, List.enum_map_snd]
    rw [hmap] at h
    exact h
  · exact validateCsvLines_errors fs lines.enum
  · rw [validateCsvInput, validateCsvInput, List.enum_append]
    rw [validateCsvLines_append]
    have hone : validateCsvLines fs ([p].enumFrom lines.length) = ([p], []) := by
      show validateCsvLines fs [(lines.length, p)] = ([p], [])
      rw [validateCsvLines]
      rw [if_neg (by rw [hstrip]; exact hpne)]
      rw [if_neg (by
        intro hh
        exact hlines (List.length_eq_zero.mp hh.1))]
      rw [hstrip]
      rw [hvalid]
      rfl
    rw [hone]
    simp

/-- C8 witness: appending a second occurrence of an already-listed valid
path accepts it as one more valid entry with no error item. -/
theorem C8_loader_order_and_duplicates_witness :
    validateCsvInput (fun _ => ⟨true, true, true⟩)
      ([toL "\\\\srv\\data"] ++ [toL "\\\\srv\\data"]) =
      ((validateCsvInput (fun _ => ⟨true, true, true⟩) [toL "\\\\srv\\data"]).1 ++
         [toL "\\\\srv\\data"],
       (validateCsvInput (fun _ => ⟨true, true, true⟩) [toL "\\\\srv\\data"]).2) :=
  (C8_loader_order_and_duplicates (fun _ => ⟨true, true, true⟩) [toL "\\\\srv\\data"]
    (toL "\\\\srv\\data") (by decide) (by decide) (by decide) (by decide)).2.2

/- ### C9 — Exit code contract -/

theorem archiveRun_exit (csvOk : Bool) (fs : List Char → PathInfo)
    (lines : List (List Char)) (cfg : DiscoveryConfig)
    (walk : List Char → Bool × List FsFile) (upload : FileTask → Bool) :
    (archiveRun csvOk fs lines cfg walk upload).1 =
      if csvOk = true ∧ (validateCsvInput fs lines).1 ≠ [] then 0 else 1 := by
  unfold archiveRun
  cases csvOk with
  | false => simp
  | true =>
    by_cases hv : (validateCsvInput fs lines).1 = []
    · simp [hv]
    · simp only [if_true, hv, if_neg hv]
      by_cases hf : collectFiles cfg
          ((validateCsvInput fs lines).1.map fun p => ⟨p, (walk p).1, (walk p).2⟩) = []
      · simp [hv, hf]
      · simp [hv, hf]

theorem restoreRequestRun_exit (csvOk : Bool) (reqs : List Nat) (send : Nat → Bool) :
    restoreRequestRun csvOk reqs send =
      if csvOk = true ∧ reqs ≠ [] ∧ ¬reqs.filter (fun n => decide (0 < n)) = [] then 0
      else 1 := by
  unfold restoreRequestRun
  cases csvOk with
  | false => simp
  | true =>
    by_cases hr : reqs = []
    · simp [hr]
    · by_cases hf : reqs.filter (fun n => decide (0 < n)) = []
      · simp [hr, hf]
      · simp [hr, hf]

/-- C9: the archive run exits 1 exactly when the manifest was unreadable or
held no valid directories, and 0 otherwise (no files to do, or files
processed — the exit code does not depend on the upload outcomes, so a run
whose every upload failed still exits 0); the restore-request run exits 0
exactly when the manifest was readable, held at least one valid request,
and at least one request resolved to provenance records, and 1 otherwise —
independently of the outcomes of the restore calls themselves. -/
theorem C9_exit_codes (csvOk : Bool) (fs : List Char → PathInfo)
    (lines : List (List Char)) (cfg : DiscoveryConfig)
    (walk : List Char → Bool × List FsFile) (upload upload' : FileTask → Bool)
    (csvOk' : Bool) (reqs : List Nat) (send send' : Nat → Bool) :
    ((archiveRun csvOk fs lines cfg walk upload).1 = 1 ↔
      (csvOk = false ∨ (validateCsvInput fs lines).1 = [])) ∧
    ((archiveRun csvOk fs lines cfg walk upload).1 = 0 ↔
      (csvOk = true ∧ (validateCsvInput fs lines).1 ≠ [])) ∧
    ((archiveRun csvOk fs lines cfg walk upload).1 =
      (archiveRun csvOk fs lines cfg walk upload').1) ∧
    (restoreRequestRun csvOk' reqs send = 0 ↔
      (csvOk' = true ∧ reqs ≠ [] ∧ ∃ n ∈ reqs, 0 < n)) ∧
    (restoreRequestRun csvOk' reqs send = 1 ↔
      ¬(csvOk' = true ∧ reqs ≠ [] ∧ ∃ n ∈ reqs, 0 < n)) ∧
    (restoreRequestRun csvOk' reqs send = restoreRequestRun csvOk' reqs send') := by
  have hfilter : (¬reqs.filter (fun n => decide (0 < n)) = []) ↔ ∃ n ∈ reqs, 0 < n := by
    rw [List.filter_eq_nil_iff]
    push_neg
    simp
  refine ⟨?_, ?_, ?_, ?_, ?_, ?_⟩
  · rw [archiveRun_exit]
    by_cases h : csvOk = true ∧ (validateCsvInput fs lines).1 ≠ []
    · rw [if_pos h]
      apply iff_of_false (by decide)
      rintro (hc | hv)
      · rw [h.1] at hc
        exact absurd hc (by decide)
      · exact h.2 hv
    · rw [if_neg h]
      apply iff_of_true rfl
      rcases not_and_or.mp h with hc | hv
      · exact Or.inl (by simpa using hc)
      · exact Or.inr (not_not.mp hv)
  · rw [archiveRun_exit]
    by_cases h : csvOk = true ∧ (validateCsvInput fs lines).1 ≠ []
    · rw [if_pos h]
      exact iff_of_true rfl h
    · rw [if_neg h]
      exact iff_of_false (by decide) h
  · rw [archiveRun_exit, archiveRun_exit]
  · rw [restoreRequestRun_exit]
    by_cases h : csvOk' = true ∧ reqs ≠ [] ∧ ¬reqs.filter (fun n => decide (0 < n)) = []
    · rw [if_pos h]
      exact iff_of_true rfl ⟨h.1, h.2.1, hfilter.mp h.2.2⟩
    · rw [if_neg h]
      apply iff_of_false (by decide)
      rintro ⟨h1, h2, h3⟩
      exact h ⟨h1, h2, hfilter.mpr h3⟩
  · rw [restoreRequestRun_exit]
    by_cases h : csvOk' = true ∧ reqs ≠ [] ∧ ¬reqs.filter (fun n => decide (0 < n)) = []
    · rw [if_pos h]
      apply iff_of_false (by decide)
      intro hneg
      exact hneg ⟨h.1, h.2.1, hfilter.mp h.2.2⟩
    · rw [if_neg h]
      apply iff_of_true rfl
      rintro ⟨h1, h2, h3⟩
      exact h ⟨h1, h2, hfilter.mpr h3⟩
  · rw [restoreRequestRun_exit, restoreRequestRun_exit]

/-- C9 witness: a single resolvable request whose restore call fails still
exits 0; an unreadable archive manifest exits 1. -/
theorem C9_exit_codes_witness :
    restoreRequestRun true [2] (fun _ => false) = 0 ∧
    (archiveRun false (fun _ => ⟨true, true, true⟩) [] ⟨[], 0, toL ".archived"⟩
      (fun _ => (true, [])) (fun _ => false)).1 = 1 := by
  have h := C9_exit_codes false (fun _ => ⟨true, true, true⟩) [] ⟨[], 0, toL ".archived"⟩
    (fun _ => (true, [])) (fun _ => false) (fun _ => false) true [2] (fun _ => false)
    (fun _ => false)
  exact ⟨h.2.2.2.1.mpr ⟨rfl, by decide, ⟨2, by decide, by decide⟩⟩, h.1.mpr (Or.inl rfl)⟩

/- ### C10 — Locator formatting/parsing round-trip -/

theorem stripS3_eq_self (s : List Char) (h : containsS3Scheme s = false) :
    stripS3Scheme s = s := by
  induction s using stripS3Scheme.induct with
  | case1 rest ih => simp [containsS3Scheme] at h
  | case2 c cs hne ih =>
    rw [containsS3Scheme.eq_2 c cs hne] at h
    rw [stripS3Scheme.eq_2 c cs hne, ih h]
  | case3 => rfl

theorem splitOnceChar_append (sep : Char) (x rest : List Char) (h : ∀ c ∈ x, c ≠ sep) :
    splitOnceChar sep (x ++ sep :: rest) = (x, some rest) := by
  induction x with
  | nil => simp [splitOnceChar]
  | cons c cs ih =>
    rw [List.cons_append, splitOnceChar]
    simp [h c (List.mem_cons_self c cs),
      ih (fun d hd => h d (List.mem_cons_of_mem c hd))]

/-- C10 (counterexample): parsing is NOT a left inverse of formatting for
every key — `replace('s3://', '')` removes every occurrence of the scheme,
so the key `s3://k` under bucket `b` parses back as `k`, not `s3://k`. -/
theorem C10_counterexample :
    extractKeyFromS3Path (formatS3Path (toL "b") (toL "s3://k")) = toL "k" ∧
    toL "k" ≠ toL "s3://k" := by
  decide

/-- C10 (amended): for every bucket without '/' and every key such that
`bucket ++ '/' ++ key` contains no occurrence of `s3://`, parsing the
persisted locator `s3://bucket/key` yields back exactly the bucket and
exactly the key. -/
theorem C10_locator_roundtrip (bucket key : List Char)
    (hb : ∀ c ∈ bucket, c ≠ '/')
    (hocc : containsS3Scheme (bucket ++ '/' :: key) = false) :
    extractBucketFromS3Path (formatS3Path bucket key) = bucket ∧
    extractKeyFromS3Path (formatS3Path bucket key) = key := by
  have hstrip : stripS3Scheme (formatS3Path bucket key) = bucket ++ '/' :: key := by
    show stripS3Scheme ('s' :: '3' :: ':' :: '/' :: '/' :: (bucket ++ '/' :: key)) = _
    rw [stripS3Scheme.eq_1, stripS3_eq_self _ hocc]
  constructor
  · rw [extractBucketFromS3Path, hstrip, splitOnChar_append_sep '/' bucket key hb]
  · rw [extractKeyFromS3Path, hstrip, splitOnceChar_append '/' bucket key hb]

/-- C10 witness: a realistic bucket/key pair round-trips exactly. -/
theorem C10_locator_roundtrip_witness :
    extractBucketFromS3Path (formatS3Path (toL "mybucket") (toL "srv/docs/a.txt")) =
      toL "mybucket" ∧
    extractKeyFromS3Path (formatS3Path (toL "mybucket") (toL "srv/docs/a.txt")) =
      toL "srv/docs/a.txt" :=
  C10_locator_roundtrip (toL "mybucket") (toL "srv/docs/a.txt") (by decide) (by decide)
